import Mathlib

/-!
Verification of the msgtier-web topology graph engine.

This file shallowly embeds the topology-graph code of the repository
(`src/components/NetworkGraph.vue`, `src/utils/address.ts`, `src/types/api.ts`)
into Lean and proves/refutes the frozen behavioural claims about it.

Modelling conventions:
* JavaScript numbers are modelled as `Rat`; all arithmetic appearing in the
  claims (sums, arithmetic means, the fixed offsets, clamping) is exact on the
  inputs involved, so no floating-point rounding is lost.
* Missing (`undefined`) JSON fields are modelled with `Option`;
  JavaScript truthiness tests such as `if (conn.id)` are translated to the
  corresponding `Option`/emptiness tests.
* JS `Map` objects are modelled as insertion-ordered association lists with
  the exact `get`/`set` semantics used by the code.
* `Math.random()` jitter for freshly created nodes is an explicit parameter.
-/

/-! ## Data model (`src/types/api.ts`) -/

/-- Structure `PortMapping` from `src/types/api.ts`. -/
structure PortMapping where
  src : Nat
  protocol : String
  dst : Nat
deriving DecidableEq, Repr

/-- Structure `Connection` from `src/types/api.ts`, restricted to the fields the graph
code reads.  Optional fields are `Option`; `latency_history` and `ports`
absent is modelled as `[]` (the code only ever asks for length/last). -/
structure Connection where
  peer_id : String
  latency_ms : Option Rat
  bandwidth_mbps : Option Rat
  id : Option String
  remote_addr : String
  local_addr : Option String
  latency_history : List Rat
  ports : List PortMapping
deriving DecidableEq, Repr

/-- Structure `Peer` from `src/types/api.ts` (fields used by the graph code). -/
structure Peer where
  id : String
  addresses : List String
  connections : List Connection
deriving DecidableEq, Repr

/-- Structure `ApiResponse` from `src/types/api.ts` (fields used by the graph code). -/
structure ApiResponse where
  peers : List Peer
  peer_id : String
deriving DecidableEq, Repr

/-! ## The standalone address parser (`src/utils/address.ts`) -/

namespace AddressUtils

/-- Structure `ParsedAddress` from `src/utils/address.ts`. -/
structure ParsedAddress where
  protocol : String
  ip : String
  port : String
  isIPv6 : Bool
  raw : String
deriving DecidableEq, Repr

/-- Character class `[a-z0-9]` of the scheme regex `^([a-z0-9]+):\/\/`. -/
def isSchemeChar (c : Char) : Bool :=
  c.isLower || c.isDigit

/-- Character class `[a-fA-F0-9:]` of the IPv6 regex. -/
def isHexOrColon (c : Char) : Bool :=
  c.isDigit || (decide ('a' ≤ c) && decide (c ≤ 'f')) ||
    (decide ('A' ≤ c) && decide (c ≤ 'F')) || c = ':'

/-- Match of `addr.match(/^([a-z0-9]+):\/\//)`: on success returns the
captured scheme and the remainder `addr.slice(match[0].length)`.
The character class excludes `:`, so the greedy match is the maximal
leading run of scheme characters followed by the literal characters of
the double-slash scheme separator. -/
def schemeSplit (addr : String) : Option (String × String) :=
  let sch := addr.data.takeWhile isSchemeChar
  let rest := addr.data.drop sch.length
  if sch ≠ [] ∧ rest.take 3 = [':', '/', '/'] then
    some (sch.asString, (rest.drop 3).asString)
  else
    none

/-- Match of `remaining.match(/^\[([a-fA-F0-9:]+)\]:(\d+)$/)`: bracketed IPv6
host plus decimal port, anchored at both ends. -/
def ipv6Parse (remaining : String) : Option (String × String) :=
  match remaining.data with
  | '[' :: rest =>
    let body := rest.takeWhile isHexOrColon
    match rest.drop body.length with
    | ']' :: ':' :: ds =>
      if body ≠ [] ∧ ds ≠ [] ∧ ds.all Char.isDigit then
        some (body.asString, ds.asString)
      else
        none
    | _ => none
  | _ => none

/-- Match of `remaining.match(/^([^:]+):(\d+)$/)`: host (no colon) plus
decimal port, anchored at both ends.  Since `[^:]+` cannot cross a colon,
the only candidate split is at the first colon. -/
def hostPortParse (remaining : String) : Option (String × String) :=
  let host := remaining.data.takeWhile (fun c => c ≠ ':')
  match remaining.data.drop host.length with
  | ':' :: ds =>
    if host ≠ [] ∧ ds ≠ [] ∧ ds.all Char.isDigit then
      some (host.asString, ds.asString)
    else
      none
  | _ => none

/-- Function `parseAddress` from `src/utils/address.ts`. -/
def parseAddress (addr : String) : ParsedAddress :=
  let pr := match schemeSplit addr with
    | some (p, r) => (p, r)
    | none => ("unknown", addr)
  let protocol := pr.1
  let remaining := pr.2
  match ipv6Parse remaining with
  | some (ip, port) =>
    { protocol := protocol, ip := ip, port := port, isIPv6 := true, raw := addr }
  | none =>
    match hostPortParse remaining with
    | some (ip, port) =>
      { protocol := protocol, ip := ip, port := port, isIPv6 := false, raw := addr }
    | none =>
      { protocol := protocol, ip := remaining, port := "", isIPv6 := false, raw := addr }

end AddressUtils

/-! ## The in-component address parser
(`parseAddress` in `src/components/NetworkGraph.vue`) -/

namespace Graph

/-- Fuel-structural worker for JS `String.prototype.split` with a nonempty
separator: scan left to right, splitting at each non-overlapping occurrence.
The fuel starts above the character count, so it never runs out. -/
def splitGo (sep : List Char) : Nat → List Char → List Char → List (List Char)
  | _, [], acc => [acc.reverse]
  | 0, l, acc => [acc.reverse ++ l]
  | fuel + 1, c :: rest, acc =>
    if sep.isPrefixOf (c :: rest) then
      acc.reverse :: splitGo sep fuel ((c :: rest).drop sep.length) []
    else
      splitGo sep fuel rest (c :: acc)

/-- JS `s.split(sep)` for a nonempty separator. -/
def jsSplit (sep : String) (s : String) : List String :=
  (splitGo sep.data (s.data.length + 1) s.data []).map List.asString

/-- JS `arr.join(sep)`. -/
def jsJoin (sep : String) : List String → String
  | [] => ""
  | [x] => x
  | x :: y :: rest => x ++ sep ++ jsJoin sep (y :: rest)

/-- Result record of the `NetworkGraph.vue` `parseAddress`. -/
structure ParsedAddr where
  ip : String
  port : String
  protocol : String
deriving DecidableEq, Repr

/-- The multiaddr protocol keywords recognised by the loop. -/
def protoKeywords : List String := ["tcp", "udp", "quic", "ws", "wss", "p2p-circuit"]

/-- The `for` loop over the slash-separated parts of a multiaddr.
State `(ip, port, protocol)` starts at `("", "", "")`; an assignment of an
out-of-range `parts[i+1]` (JS `undefined`) is modelled as `""`, which agrees
with JS truthiness everywhere the value is later tested (all genuine parts
are nonempty because empty segments were filtered out). -/
def scanParts : List String → String → String → String → String × String × String
  | [], ip, port, protocol => (ip, port, protocol)
  | x :: rest, ip, port, protocol =>
    if x = "ip4" ∨ x = "ip6" then
      match rest with
      | [] => ("", port, protocol)
      | y :: rest2 => scanParts rest2 y port protocol
    else if x ∈ protoKeywords then
      let protocol2 := if protocol = "" then x else protocol ++ "/" ++ x
      match rest with
      | [] => (ip, port, protocol2)
      | y :: rest2 =>
        if y.data ≠ [] ∧ y.data.all Char.isDigit then
          scanParts rest2 ip y protocol2
        else
          scanParts (y :: rest2) ip port protocol2
    else
      scanParts rest ip port protocol

/-- JS `remainder.lastIndexOf(c)` on a character list. -/
def lastIndexOf (c : Char) (l : List Char) : Option Nat :=
  (l.enum.filter (fun p => p.2 = c)).getLast? |>.map (fun p => p.1)

/-- JS `s.toUpperCase()`. -/
def jsToUpper (s : String) : String :=
  (s.data.map Char.toUpper).asString

/-- Function `parseAddress` from `src/components/NetworkGraph.vue` (lines 249-306). -/
def parseAddress (addr : String) : ParsedAddr :=
  if addr = "" then
    { ip := "Unknown", port := "", protocol := "" }
  else if addr.data.take 1 = ['/'] then
    -- multiaddr branch: addr.split("/").filter(p => p)
    let parts := (jsSplit "/" addr).filter (fun p => p ≠ "")
    let s := scanParts parts "" "" ""
    let ip := s.1
    let port := s.2.1
    let protocol := s.2.2
    -- fallback if IP not found but other parts exist
    let ip2 :=
      if ip = "" ∧ parts.length > 0 ∧ ¬ (parts.headD "") ∈ protoKeywords then
        match parts with
        | [] => ip
        | [p0] => p0
        | _ :: p1 :: _ => p1
      else ip
    { ip := ip2, port := port, protocol := jsToUpper protocol }
  else if (jsSplit "://" addr).length > 1 then
    -- URI branch: addr.split("://")
    let parts := jsSplit "://" addr
    let protocol := parts.headD ""
    let remainder := (parts.drop 1).headD ""
    let lastColon := lastIndexOf ':' remainder.data
    let lastBracket := lastIndexOf ']' remainder.data
    let colonAfterBracket :=
      match lastColon, lastBracket with
      | none, _ => false
      | some _, none => true
      | some i, some j => decide (j < i)
    if colonAfterBracket then
      match lastColon with
      | some i =>
        let port := (remainder.data.drop (i + 1)).asString
        let ipChars := remainder.data.take i
        let ip :=
          if ipChars.take 1 = ['['] ∧ ipChars.getLast? = some ']' then
            (ipChars.drop 1 |>.dropLast).asString
          else
            ipChars.asString
        { ip := ip, port := port, protocol := jsToUpper protocol }
      | none =>
        { ip := remainder, port := "", protocol := jsToUpper protocol }
    else
      { ip := remainder, port := "", protocol := jsToUpper protocol }
  else
    { ip := addr, port := "", protocol := "" }

end Graph

/-! ## Graph model (`updateGraph` in `src/components/NetworkGraph.vue`) -/

namespace Graph

/-- The raw per-connection record pushed into `connectionMap` /
`standaloneLinks` (the `linkData` object literal, lines 416-428). -/
structure LinkData where
  source : String
  target : String
  bandwidth : Rat
  latency : Rat
  remote_addr : String
  local_addr : Option String
  protocol : String
  port : String
  local_port : String
  id : Option String
  originalIndex : Nat
deriving DecidableEq, Repr

/-- Structure `GraphLink` (the logical edge record handed to D3). -/
structure GraphLink where
  id : String
  source : String
  target : String
  bandwidth : Rat
  latency : Rat
  remote_addr : String
  local_addr : Option String
  protocol : String
  port : String
  local_port : String
  curvatureOffset : Rat
  isBidirectional : Bool
  originalIndex : Nat
deriving DecidableEq, Repr

/-- Node kind: `"self" | "peer"`. -/
inductive NodeType where
  | self : NodeType
  | peer : NodeType
deriving DecidableEq, Repr

/-- Structure `GraphNode` (as used by the simulation). `fx`/`fy` are the optional pin
coordinates; `x`/`y` the live position. -/
structure GraphNode where
  id : String
  name : String
  type : NodeType
  ips : List String
  x : Rat
  y : Rat
  fx : Option Rat
  fy : Option Rat
deriving DecidableEq, Repr

/-- The simulation-owned state carried between `updateGraph` calls:
its node array and the current alpha (energy). -/
structure SimState where
  nodes : List GraphNode
  links : List GraphLink
  alpha : Rat
deriving DecidableEq, Repr

/-- Expression `conn.latency_ms || (conn.latency_history?.length ? last : 0)`:
a zero/absent `latency_ms` falls through to the tail of the history. -/
def connLatency (conn : Connection) : Rat :=
  if conn.latency_ms.getD 0 ≠ 0 then conn.latency_ms.getD 0
  else (conn.latency_history.getLast?).getD 0

/-- The `linkData` record built for one connection of one peer
(lines 414-428). -/
def mkLinkData (sourceId : String) (index : Nat) (conn : Connection) : LinkData :=
  let parsed := parseAddress conn.remote_addr
  let parsedLocal := parseAddress (conn.local_addr.getD "")
  { source := sourceId
    target := conn.peer_id
    bandwidth := conn.bandwidth_mbps.getD 0
    latency := connLatency conn
    remote_addr := conn.remote_addr
    local_addr := conn.local_addr
    protocol := parsed.protocol
    port := parsed.port
    local_port := parsedLocal.port
    id := conn.id
    originalIndex := index }

/-- JS `conn.id` truthiness: present and nonempty. -/
def hasConnId (conn : Connection) : Bool :=
  match conn.id with
  | some s => s ≠ ""
  | none => false

/-- JS `Map.set`-style push into an insertion-ordered association list:
append to the existing entry's list, else append a fresh entry at the end. -/
def mapPush (m : List (String × List LinkData)) (k : String) (v : LinkData) :
    List (String × List LinkData) :=
  if m.any (fun p => p.1 = k) then
    m.map (fun p => if p.1 = k then (p.1, p.2 ++ [v]) else p)
  else
    m ++ [(k, [v])]

/-- One step of the collection loop body (lines 407-438): skip self-loops,
then route the record into `connectionMap` or `standaloneLinks`. -/
def collectStep (peerId : String)
    (acc : List (String × List LinkData) × List LinkData) (iconn : Nat × Connection) :
    List (String × List LinkData) × List LinkData :=
  let index := iconn.1
  let conn := iconn.2
  if peerId = conn.peer_id then acc
  else
    let ld := mkLinkData peerId index conn
    if hasConnId conn then
      (mapPush acc.1 (conn.id.getD "") ld, acc.2)
    else
      (acc.1, acc.2 ++ [ld])

/-- The nested `data.peers.forEach` / `peer.connections.forEach` collection
(lines 404-439), producing `connectionMap` and `standaloneLinks`. -/
def collectLinks (data : ApiResponse) :
    List (String × List LinkData) × List LinkData :=
  data.peers.foldl
    (fun acc peer => peer.connections.enum.foldl (collectStep peer.id) acc)
    ([], [])

/-- Field-for-field conversion of a `linkData` spread (`...l`) into a
`GraphLink` with the given id (`curvatureOffset := 0`, not bidirectional). -/
def LinkData.toLink (l : LinkData) (newId : String) : GraphLink :=
  { id := newId
    source := l.source
    target := l.target
    bandwidth := l.bandwidth
    latency := l.latency
    remote_addr := l.remote_addr
    local_addr := l.local_addr
    protocol := l.protocol
    port := l.port
    local_port := l.local_port
    curvatureOffset := 0
    isBidirectional := false
    originalIndex := l.originalIndex }

/-- Processing of one `connectionMap` group (lines 444-478): groups with
more than one member merge into a single bidirectional link (bandwidth
summed, latency averaged, descriptors from the first member); singleton
groups become one unidirectional link. -/
def processGroup (connId : String) (links : List LinkData) : List GraphLink :=
  if links.length > 1 then
    match links with
    | [] => []
    | baseLink :: _ =>
      [{ LinkData.toLink baseLink ("merged-" ++ connId) with
          isBidirectional := true
          bandwidth := (links.map (fun l => l.bandwidth)).sum
          latency := (links.map (fun l => l.latency)).sum / (links.length : Rat)
          remote_addr := jsJoin " <-> " (links.map (fun l => l.remote_addr)) }]
  else
    links.map (fun l => LinkData.toLink l ("conn-" ++ connId))

/-- The id synthesized for a standalone link (line 484):
`` `${l.source}-${l.target}-${l.originalIndex}` ``. -/
def standaloneId (l : LinkData) : String :=
  l.source ++ "-" ++ l.target ++ "-" ++ Nat.repr l.originalIndex

/-- List `logicalLinks` (lines 441-487): processed groups in map order followed by
the standalone links. -/
def buildLogicalLinks (data : ApiResponse) : List GraphLink :=
  let cm := collectLinks data
  (cm.1.map (fun g => processGroup g.1 g.2)).flatten
    ++ cm.2.map (fun l => LinkData.toLink l (standaloneId l))

/-- Lexicographic code-unit comparison, as used by the default JS
`Array.prototype.sort` comparator on strings (identical to code-point
order on the identifiers at hand). -/
def lexLe : List Char → List Char → Bool
  | [], _ => true
  | _ :: _, [] => false
  | a :: as, b :: bs => if a = b then lexLe as bs else decide (a < b)

/-- JS string comparison `s <= t` (code-unit lexicographic). -/
def jsStrLe (s t : String) : Bool :=
  lexLe s.data t.data

/-- The canonical unordered pair key `[s, t].sort().join("|||")`
(lines 494-496). -/
def pairKey (link : GraphLink) : String :=
  if jsStrLe link.source link.target then link.source ++ "|||" ++ link.target
  else link.target ++ "|||" ++ link.source

/-- JS `Map.set`-style push for the pair-group map. -/
def pairPush (m : List (String × List GraphLink)) (k : String) (v : GraphLink) :
    List (String × List GraphLink) :=
  if m.any (fun p => p.1 = k) then
    m.map (fun p => if p.1 = k then (p.1, p.2 ++ [v]) else p)
  else
    m ++ [(k, [v])]

/-- Map `pairGroups` (lines 490-502). -/
def buildPairGroups (links : List GraphLink) : List (String × List GraphLink) :=
  links.foldl (fun m link => pairPush m (pairKey link) link) []

/-- The base offset `(i - (n - 1) / 2) * spacing` with `spacing = 50`
(lines 509-510). -/
def curvOffset (n i : Nat) : Rat :=
  ((i : Rat) - ((n : Rat) - 1) / 2) * 50

/-- Offset assignment within one pair group (lines 505-524): position `i`
in encounter order gets the base offset, negated when the link's stored
source is not the first id of the canonical key. -/
def assignGroup (key : String) (links : List GraphLink) : List GraphLink :=
  let id1 := (jsSplit "|||" key).headD ""
  links.enum.map (fun p =>
    let offset := curvOffset links.length p.1
    { p.2 with curvatureOffset := if p.2.source = id1 then offset else -offset })

/-- List `newLinks` after curvature assignment (steps 3 and 4, lines 489-524). -/
def assignOffsets (links : List GraphLink) : List GraphLink :=
  ((buildPairGroups links).map (fun g => assignGroup g.1 g.2)).flatten

end Graph

namespace Graph

/-- JS `Map` lookup over entries inserted in list order with later entries
overwriting earlier ones (`new Map(nodes.map(n => [n.id, n])).get(id)`). -/
def mapGet (nodes : List GraphNode) (id : String) : Option GraphNode :=
  nodes.foldl (fun acc n => if n.id = id then some n else acc) none

/-- First-occurrence filter `arr.indexOf(ip) === i` used for the node's IP
list. -/
def keepFirstOccurrences (l : List String) : List String :=
  l.foldl (fun acc x => if x ∈ acc then acc else acc ++ [x]) []

/-- The deduplicated, `"Unknown"`-filtered IP list of a peer (line 373). -/
def peerIps (peer : Peer) : List String :=
  (keepFirstOccurrences (peer.addresses.map (fun a => (parseAddress a).ip))).filter
    (fun ip => ip ≠ "Unknown")

/-- Node construction for one peer (lines 370-396): reuse the simulation's
existing node object (preserving `x`/`y`) when one with this id exists,
else create a fresh node jittered around the viewport centre.
`jitter idx` stands for the two `(Math.random() - 0.5) * 50` draws. -/
def buildNode (data : ApiResponse) (oldNodes : List GraphNode)
    (width height : Rat) (jitter : Nat → Rat × Rat) (idx : Nat) (peer : Peer) :
    GraphNode :=
  let isSelf := peer.id = data.peer_id
  match mapGet oldNodes peer.id with
  | some existing =>
    { existing with
        name := peer.id
        type := if isSelf then NodeType.self else NodeType.peer
        ips := peerIps peer
        fx := if isSelf then some (width / 2) else existing.fx
        fy := if isSelf then some (height / 2) else existing.fy }
  | none =>
    { id := peer.id
      name := peer.id
      type := if isSelf then NodeType.self else NodeType.peer
      ips := peerIps peer
      x := width / 2 + (jitter idx).1
      y := height / 2 + (jitter idx).2
      fx := if isSelf then some (width / 2) else none
      fy := if isSelf then some (height / 2) else none }

/-- List `newNodes` (lines 370-396). -/
def buildNodes (data : ApiResponse) (oldNodes : List GraphNode)
    (width height : Rat) (jitter : Nat → Rat × Rat) : List GraphNode :=
  data.peers.enum.map (fun p => buildNode data oldNodes width height jitter p.1 p.2)

/-- Flag `nodesChanged` (lines 365-367): set sizes differ, or some current id is
absent from the new id set.  JS `Set` insertion de-duplicates, hence the
first-occurrence filter. -/
def nodesChanged (data : ApiResponse) (st : SimState) : Bool :=
  let currentNodeIds := keepFirstOccurrences (st.nodes.map (fun n => n.id))
  let newNodeIds := keepFirstOccurrences (data.peers.map (fun p => p.id))
  currentNodeIds.length ≠ newNodeIds.length ||
    currentNodeIds.any (fun id => ¬ (id ∈ newNodeIds))

/-- The alpha (simulation energy) after one `updateGraph` call:
`simulation.alpha(1).restart()` on topology change (lines 757-759), then the
final `if (simulation.alpha() < 0.1) simulation.alpha(0.3).restart()`
(lines 983-985). -/
def nextAlpha (changed : Bool) (alpha : Rat) : Rat :=
  let a1 := if changed then 1 else alpha
  if a1 < 1 / 10 then 3 / 10 else a1

/-- One `updateGraph(data)` call (lines 358-986) as a transition on the
simulation state: rebuild nodes (reusing old positions), rebuild and
offset-assign the logical links, and update alpha. -/
def updateGraph (data : ApiResponse) (st : SimState)
    (width height : Rat) (jitter : Nat → Rat × Rat) : SimState :=
  { nodes := buildNodes data st.nodes width height jitter
    links := assignOffsets (buildLogicalLinks data)
    alpha := nextAlpha (nodesChanged data st) st.alpha }

/-- The visual radius used by the tick clamp (line 779). -/
def nodeRadius (d : GraphNode) : Rat :=
  if d.type = NodeType.self then 25 else 18

/-- The per-node boundary clamp of the tick handler (lines 778-788). -/
def clampNode (width height : Rat) (d : GraphNode) : GraphNode :=
  let r := nodeRadius d
  let padding : Rat := 20
  { d with
      x := max (r + padding) (min (width - r - padding) d.x)
      y := max (r + padding) (min (height - r - padding) d.y) }

/-- The position part of one simulation tick callback (lines 776-788):
every node is clamped into the padded viewport rectangle. -/
def clampTick (width height : Rat) (nodes : List GraphNode) : List GraphNode :=
  nodes.map (clampNode width height)

end Graph

/-! ## Concrete test fixtures used by counterexamples and witnesses -/

/-- A connection record with only the routinely present fields. -/
def mkConn (target : String) (cid : Option String) (bw lat : Rat)
    (raddr : String := "") (ports : List PortMapping := []) : Connection :=
  { peer_id := target
    latency_ms := some lat
    bandwidth_mbps := some bw
    id := cid
    remote_addr := raddr
    local_addr := none
    latency_history := []
    ports := ports }

/-- A peer with no advertised addresses. -/
def mkPeer (id : String) (conns : List Connection) : Peer :=
  { id := id, addresses := [], connections := conns }

/-- C1 scenario: records sharing id `K`, `A→B` bandwidth 2.0 / latency 10 and
`B→A` bandwidth 3.0 / latency 20. -/
def exC1 : ApiResponse :=
  { peers := [mkPeer "A" [mkConn "B" (some "K") 2 10],
              mkPeer "B" [mkConn "A" (some "K") 3 20]]
    peer_id := "A" }

/-- C3 scenario: `A→B` and `B→A`, both without a connection identifier. -/
def exC3 : ApiResponse :=
  { peers := [mkPeer "A" [mkConn "B" none 1 1],
              mkPeer "B" [mkConn "A" none 1 1]]
    peer_id := "A" }

/-- C6 scenario: two identified parallel connections whose encounter order
(`z` before `a`) disagrees with the order sorted by edge id. -/
def exC6 : ApiResponse :=
  { peers := [mkPeer "A" [mkConn "B" (some "z") 1 1, mkConn "B" (some "a") 1 1],
              mkPeer "B" []]
    peer_id := "A" }

/-- C7 scenario: both members of a merged group carry explicit `ports`
entries and differ in protocol and port. -/
def exC7 : ApiResponse :=
  { peers := [mkPeer "A" [mkConn "B" (some "K") 1 1 "tcp://1.1.1.1:80"
                [{ src := 1, protocol := "tcp", dst := 2 }]],
              mkPeer "B" [mkConn "A" (some "K") 1 1 "udp://2.2.2.2:99"
                [{ src := 3, protocol := "udp", dst := 4 }]]]
    peer_id := "A" }

/-- C9 scenario: a peer node far outside an 800x600 viewport. -/
def exNode : Graph.GraphNode :=
  { id := "A", name := "A", type := Graph.NodeType.peer, ips := [],
    x := -500, y := 9000, fx := none, fy := none }

/-- C10 scenario: pairwise-distinct peer ids containing `-` whose synthesized
standalone edge ids collide. -/
def exC10 : ApiResponse :=
  { peers := [mkPeer "a-b" [mkConn "c" none 1 1],
              mkPeer "a" [mkConn "b-c" none 1 1]]
    peer_id := "a" }

/-! ## Helper lemmas -/

namespace Graph

theorem mapGet_foldl_some {id : String} {n : GraphNode} :
    ∀ (ns : List GraphNode) (init : Option GraphNode),
      ns.foldl (fun acc m => if m.id = id then some m else acc) init = some n →
      (n ∈ ns ∧ n.id = id) ∨ init = some n := by
  intro ns
  induction ns with
  | nil => intro init h; exact Or.inr h
  | cons m ns ih =>
    intro init h
    rcases ih _ h with h1 | h1
    · exact Or.inl ⟨List.mem_cons_of_mem _ h1.1, h1.2⟩
    · by_cases hm : m.id = id
      · simp only [hm, if_true] at h1
        cases h1
        exact Or.inl ⟨List.mem_cons_self _ _, hm⟩
      · simp only [if_neg hm] at h1
        exact Or.inr h1

theorem mapGet_some {ns : List GraphNode} {id : String} {n : GraphNode}
    (h : mapGet ns id = some n) : n ∈ ns ∧ n.id = id := by
  rcases mapGet_foldl_some ns none h with h1 | h1
  · exact h1
  · cases h1

theorem mapGet_foldl_none {id : String} :
    ∀ (ns : List GraphNode) (init : Option GraphNode),
      ns.foldl (fun acc m => if m.id = id then some m else acc) init = none →
      (∀ m ∈ ns, m.id ≠ id) ∧ init = none := by
  intro ns
  induction ns with
  | nil => intro init h; exact ⟨by simp, h⟩
  | cons m ns ih =>
    intro init h
    rcases ih _ h with ⟨h1, h2⟩
    by_cases hm : m.id = id
    · simp only [hm, if_true] at h2; cases h2
    · simp only [if_neg hm] at h2
      refine ⟨?_, h2⟩
      intro m2 hm2
      rcases List.mem_cons.mp hm2 with rfl | hmem
      · exact hm
      · exact h1 m2 hmem

theorem mapGet_isSome_of_mem {ns : List GraphNode} {id : String}
    (h : id ∈ ns.map (fun n => n.id)) : ∃ n, mapGet ns id = some n := by
  cases hg : mapGet ns id with
  | some n => exact ⟨n, rfl⟩
  | none =>
    rcases mapGet_foldl_none ns none hg with ⟨h1, _⟩
    rcases List.mem_map.mp h with ⟨m, hm, rfl⟩
    exact absurd rfl (h1 m hm)

theorem keepFirst_foldl_mem {x : String} :
    ∀ (l acc : List String),
      x ∈ l.foldl (fun acc y => if y ∈ acc then acc else acc ++ [y]) acc ↔
        x ∈ acc ∨ x ∈ l := by
  intro l
  induction l with
  | nil => simp
  | cons y l ih =>
    intro acc
    simp only [List.foldl_cons, ih]
    by_cases hy : y ∈ acc
    · rw [if_pos hy]
      constructor
      · rintro (h | h)
        · exact Or.inl h
        · exact Or.inr (List.mem_cons_of_mem _ h)
      · rintro (h | h)
        · exact Or.inl h
        · rcases List.mem_cons.mp h with rfl | h
          · exact Or.inl hy
          · exact Or.inr h
    · rw [if_neg hy]
      simp only [List.mem_append, List.mem_singleton, List.mem_cons]
      tauto

theorem keepFirstOccurrences_mem {x : String} {l : List String} :
    x ∈ keepFirstOccurrences l ↔ x ∈ l := by
  unfold keepFirstOccurrences
  rw [keepFirst_foldl_mem]
  simp

theorem keepFirst_foldl_nodup :
    ∀ (l acc : List String), acc.Nodup →
      (l.foldl (fun acc y => if y ∈ acc then acc else acc ++ [y]) acc).Nodup := by
  intro l
  induction l with
  | nil => intro acc h; exact h
  | cons y l ih =>
    intro acc h
    simp only [List.foldl_cons]
    by_cases hy : y ∈ acc
    · rw [if_pos hy]; exact ih acc h
    · rw [if_neg hy]
      refine ih _ ?_
      simp [List.nodup_append, h, hy]

theorem keepFirstOccurrences_nodup (l : List String) :
    (keepFirstOccurrences l).Nodup :=
  keepFirst_foldl_nodup l [] List.nodup_nil

theorem keepFirstOccurrences_toFinset (l : List String) :
    (keepFirstOccurrences l).toFinset = l.toFinset := by
  ext x
  simp [keepFirstOccurrences_mem]

theorem keepFirstOccurrences_length (l : List String) :
    (keepFirstOccurrences l).length = l.toFinset.card := by
  rw [← keepFirstOccurrences_toFinset,
    List.toFinset_card_of_nodup (keepFirstOccurrences_nodup l)]

/-- Flag `nodesChanged` is `false` exactly when the old and new node-id sets are
equal as sets. -/
theorem nodesChanged_eq_false_iff (data : ApiResponse) (st : SimState) :
    nodesChanged data st = false ↔
      (st.nodes.map (fun n => n.id)).toFinset = (data.peers.map (fun p => p.id)).toFinset := by
  unfold nodesChanged
  constructor
  · intro h
    simp only [Bool.or_eq_false_iff, decide_eq_false_iff_not, List.any_eq_false] at h
    rcases h with ⟨hlen, hmem⟩
    apply Finset.eq_of_subset_of_card_le
    · intro x hx
      rw [← keepFirstOccurrences_toFinset, List.mem_toFinset] at hx
      have := hmem x hx
      simp only [decide_eq_true_eq, not_not] at this
      rw [← keepFirstOccurrences_toFinset, List.mem_toFinset]
      exact this
    · rw [← keepFirstOccurrences_length, ← keepFirstOccurrences_length]
      omega
  · intro h
    simp only [Bool.or_eq_false_iff, decide_eq_false_iff_not, List.any_eq_false]
    constructor
    · rw [keepFirstOccurrences_length, keepFirstOccurrences_length, h]
      simp
    · intro x hx
      simp only [decide_eq_true_eq, not_not]
      rw [keepFirstOccurrences_mem] at hx
      rw [keepFirstOccurrences_mem, ← List.mem_toFinset, ← h, List.mem_toFinset]
      exact hx

end Graph

namespace Graph

theorem processGroup_cons_cons (connId : String) (l1 l2 : LinkData) (rest : List LinkData) :
    processGroup connId (l1 :: l2 :: rest) =
      [{ LinkData.toLink l1 ("merged-" ++ connId) with
          isBidirectional := true
          bandwidth := ((l1 :: l2 :: rest).map (fun l => l.bandwidth)).sum
          latency := ((l1 :: l2 :: rest).map (fun l => l.latency)).sum /
            ((l1 :: l2 :: rest).length : Rat)
          remote_addr := jsJoin " <-> " ((l1 :: l2 :: rest).map (fun l => l.remote_addr)) }] := by
  have hlen : (l1 :: l2 :: rest).length > 1 := by simp
  unfold processGroup
  rw [if_pos hlen]

theorem snd_mem_of_mem_enumFrom {α : Type} :
    ∀ (l : List α) (n : Nat) (p : Nat × α), p ∈ List.enumFrom n l → p.2 ∈ l := by
  intro l
  induction l with
  | nil => intro n p h; cases h
  | cons x l ih =>
    intro n p h
    rcases List.mem_cons.mp h with rfl | h
    · exact List.mem_cons_self _ _
    · exact List.mem_cons_of_mem _ (ih (n + 1) p h)

end Graph

/-! ## Claim theorems -/

/-- C1: every group of at least two raw connection records sharing a
connection identifier (self-loops having been removed before grouping)
yields exactly one logical edge, marked bidirectional, with summed bandwidth
and arithmetic-mean latency; in particular the `A↔B` example with
bandwidths 2.0/3.0 and latencies 10/20 yields one edge with bandwidth 5.0,
latency 15, bidirectional. -/
theorem merged_group_aggregates :
    (∀ (connId : String) (links : List Graph.LinkData), 2 ≤ links.length →
      ∃ e, Graph.processGroup connId links = [e] ∧
        e.isBidirectional = true ∧
        e.bandwidth = (links.map (fun l => l.bandwidth)).sum ∧
        e.latency = (links.map (fun l => l.latency)).sum / (links.length : Rat)) ∧
    (Graph.buildLogicalLinks exC1).map
      (fun e => (e.bandwidth, e.latency, e.isBidirectional)) = [(5, 15, true)] := by
  constructor
  · intro connId links h
    match links with
    | l1 :: l2 :: rest =>
      rw [Graph.processGroup_cons_cons]
      exact ⟨_, rfl, rfl, rfl, rfl⟩
  · simp [exC1, mkPeer, mkConn, Graph.buildLogicalLinks, Graph.collectLinks, Graph.collectStep,
      Graph.mkLinkData, Graph.hasConnId, Graph.mapPush, Graph.processGroup, Graph.LinkData.toLink,
      Graph.connLatency, List.enum]
    norm_num

/-- Witness for C1 at the concrete two-member group from the example. -/
theorem merged_group_aggregates_witness :
    ∃ e, Graph.processGroup "K"
        [Graph.mkLinkData "A" 0 (mkConn "B" (some "K") 2 10),
         Graph.mkLinkData "B" 0 (mkConn "A" (some "K") 3 20)] = [e] ∧
      e.isBidirectional = true ∧
      e.bandwidth = (([Graph.mkLinkData "A" 0 (mkConn "B" (some "K") 2 10),
          Graph.mkLinkData "B" 0 (mkConn "A" (some "K") 3 20)]).map
            (fun l => l.bandwidth)).sum ∧
      e.latency = (([Graph.mkLinkData "A" 0 (mkConn "B" (some "K") 2 10),
          Graph.mkLinkData "B" 0 (mkConn "A" (some "K") 3 20)]).map
            (fun l => l.latency)).sum /
        (([Graph.mkLinkData "A" 0 (mkConn "B" (some "K") 2 10),
          Graph.mkLinkData "B" 0 (mkConn "A" (some "K") 3 20)] : List Graph.LinkData).length : Rat) :=
  merged_group_aggregates.1 "K" _ (by decide)

/-- C2: when the node-id set is unchanged between two consecutive snapshots,
every node produced by the update keeps the position of the old node with
the same id, and the simulation energy is not raised to the reheat level. -/
theorem position_continuity :
    ∀ (data : ApiResponse) (st : Graph.SimState) (width height : Rat)
      (jitter : Nat → Rat × Rat),
      (st.nodes.map (fun n => n.id)).toFinset = (data.peers.map (fun p => p.id)).toFinset →
      (∀ n2 ∈ (Graph.updateGraph data st width height jitter).nodes,
        ∃ n1 ∈ st.nodes, n1.id = n2.id ∧ n2.x = n1.x ∧ n2.y = n1.y) ∧
      (st.alpha < 1 → (Graph.updateGraph data st width height jitter).alpha < 1) := by
  intro data st width height jitter hset
  constructor
  · intro n2 hn2
    simp only [Graph.updateGraph, Graph.buildNodes, List.mem_map] at hn2
    rcases hn2 with ⟨p, hp, rfl⟩
    have hpeer : p.2 ∈ data.peers := Graph.snd_mem_of_mem_enumFrom _ _ _ hp
    have hmem : p.2.id ∈ st.nodes.map (fun n => n.id) := by
      rw [← List.mem_toFinset, hset, List.mem_toFinset]
      exact List.mem_map_of_mem _ hpeer
    rcases Graph.mapGet_isSome_of_mem hmem with ⟨existing, hg⟩
    have hx := Graph.mapGet_some hg
    refine ⟨existing, hx.1, ?_⟩
    simp [Graph.buildNode, hg]
  · intro halpha
    have hnc : Graph.nodesChanged data st = false :=
      (Graph.nodesChanged_eq_false_iff data st).mpr hset
    simp only [Graph.updateGraph, Graph.nextAlpha, hnc, if_false, Bool.false_eq_true]
    by_cases hlt : st.alpha < 1 / 10
    · rw [if_pos hlt]; norm_num
    · rw [if_neg hlt]; exact halpha

/-- Witness for C2: an unchanged singleton topology keeps the node at its
old position and below reheat energy. -/
theorem position_continuity_witness :
    (∀ n2 ∈ (Graph.updateGraph
        { peers := [mkPeer "A" []], peer_id := "Z" }
        { nodes := [{ id := "A", name := "A", type := Graph.NodeType.peer, ips := [],
                      x := 7, y := 9, fx := none, fy := none }],
          links := [], alpha := 1 / 2 } 800 600 (fun _ => (0, 0))).nodes,
      ∃ n1 ∈ [({ id := "A", name := "A", type := Graph.NodeType.peer, ips := [],
                  x := 7, y := 9, fx := none, fy := none } : Graph.GraphNode)],
        n1.id = n2.id ∧ n2.x = n1.x ∧ n2.y = n1.y) ∧
    ((Graph.updateGraph
        { peers := [mkPeer "A" []], peer_id := "Z" }
        { nodes := [{ id := "A", name := "A", type := Graph.NodeType.peer, ips := [],
                      x := 7, y := 9, fx := none, fy := none }],
          links := [], alpha := 1 / 2 } 800 600 (fun _ => (0, 0))).alpha < 1) := by
  have h := position_continuity
    { peers := [mkPeer "A" []], peer_id := "Z" }
    { nodes := [{ id := "A", name := "A", type := Graph.NodeType.peer, ips := [],
                  x := 7, y := 9, fx := none, fy := none }],
      links := [], alpha := 1 / 2 } 800 600 (fun _ => (0, 0)) (by decide)
  exact ⟨h.1, h.2 (by norm_num)⟩

/-- C4: `nodesChanged` is true exactly when the node-id sets differ in
membership, and a membership difference drives the simulation energy to the
high reheat level (alpha 1). -/
theorem nodesChanged_membership_reheat :
    ∀ (data : ApiResponse) (st : Graph.SimState) (width height : Rat)
      (jitter : Nat → Rat × Rat),
      (Graph.nodesChanged data st = true ↔
        (st.nodes.map (fun n => n.id)).toFinset ≠
          (data.peers.map (fun p => p.id)).toFinset) ∧
      ((st.nodes.map (fun n => n.id)).toFinset ≠
          (data.peers.map (fun p => p.id)).toFinset →
        (Graph.updateGraph data st width height jitter).alpha = 1) := by
  intro data st width height jitter
  have hiff := Graph.nodesChanged_eq_false_iff data st
  constructor
  · constructor
    · intro h hset
      rw [hiff.mpr hset] at h
      cases h
    · intro hset
      cases hnc : Graph.nodesChanged data st with
      | true => rfl
      | false => exact absurd (hiff.mp hnc) hset
  · intro hset
    have hnc : Graph.nodesChanged data st = true := by
      cases hnc : Graph.nodesChanged data st with
      | true => rfl
      | false => exact absurd (hiff.mp hnc) hset
    simp only [Graph.updateGraph, Graph.nextAlpha, hnc, if_true]
    norm_num

/-- Witness for C4: adding two fresh peers to an empty simulation reheats
alpha to 1. -/
theorem nodesChanged_membership_reheat_witness :
    Graph.nodesChanged exC1 { nodes := [], links := [], alpha := 0 } = true ∧
    (Graph.updateGraph exC1 { nodes := [], links := [], alpha := 0 }
      800 600 (fun _ => (0, 0))).alpha = 1 := by
  have h := nodesChanged_membership_reheat exC1
    { nodes := [], links := [], alpha := 0 } 800 600 (fun _ => (0, 0))
  exact ⟨h.1.mpr (by decide), h.2 (by decide)⟩

/-- C8: the address parser of `src/utils/address.ts` is total by
construction (it is a Lean function into `ParsedAddress`); on the empty
string and on any input matched by none of its classification patterns it
degrades to protocol `"unknown"` (the scheme, when one was present), the
raw string trimmed of the scheme as `ip`, and an empty port. -/
theorem parseAddress_total_fallback :
    (AddressUtils.parseAddress "" =
      { protocol := "unknown", ip := "", port := "", isIPv6 := false, raw := "" }) ∧
    (∀ addr : String,
      AddressUtils.schemeSplit addr = none →
      AddressUtils.ipv6Parse addr = none →
      AddressUtils.hostPortParse addr = none →
      AddressUtils.parseAddress addr =
        { protocol := "unknown", ip := addr, port := "", isIPv6 := false, raw := addr }) ∧
    (∀ addr scheme rest : String,
      AddressUtils.schemeSplit addr = some (scheme, rest) →
      AddressUtils.ipv6Parse rest = none →
      AddressUtils.hostPortParse rest = none →
      AddressUtils.parseAddress addr =
        { protocol := scheme, ip := rest, port := "", isIPv6 := false, raw := addr }) := by
  refine ⟨by decide, ?_, ?_⟩
  · intro addr h1 h2 h3
    unfold AddressUtils.parseAddress
    rw [h1]
    simp only [h2, h3]
  · intro addr scheme rest h1 h2 h3
    unfold AddressUtils.parseAddress
    rw [h1]
    simp only [h2, h3]

/-- Witness for C8 at two unclassifiable inputs, one without and one with a
scheme prefix. -/
theorem parseAddress_total_fallback_witness :
    AddressUtils.parseAddress "???" =
      { protocol := "unknown", ip := "???", port := "", isIPv6 := false, raw := "???" } ∧
    AddressUtils.parseAddress "xy://???" =
      { protocol := "xy", ip := "???", port := "", isIPv6 := false, raw := "xy://???" } :=
  ⟨parseAddress_total_fallback.2.1 "???" (by decide) (by decide) (by decide),
   parseAddress_total_fallback.2.2 "xy://???" "xy" "???" (by decide) (by decide) (by decide)⟩

/-- C9: the tick-handler clamp keeps every node's coordinates inside the
padded viewport rectangle (radius 25 for the self node, 18 for peers,
padding 20), for any viewport at least as large as twice radius+padding. -/
theorem tick_boundary_clamp :
    ∀ (width height : Rat) (nodes : List Graph.GraphNode),
      2 * (25 + 20) ≤ width → 2 * (25 + 20) ≤ height →
      ∀ d ∈ Graph.clampTick width height nodes,
        Graph.nodeRadius d + 20 ≤ d.x ∧ d.x ≤ width - Graph.nodeRadius d - 20 ∧
        Graph.nodeRadius d + 20 ≤ d.y ∧ d.y ≤ height - Graph.nodeRadius d - 20 := by
  intro width height nodes hw hh d hd
  simp only [Graph.clampTick, List.mem_map] at hd
  rcases hd with ⟨d0, _, rfl⟩
  have hr : Graph.nodeRadius (Graph.clampNode width height d0) = Graph.nodeRadius d0 := by
    simp [Graph.clampNode, Graph.nodeRadius]
  have hrb : Graph.nodeRadius d0 = 25 ∨ Graph.nodeRadius d0 = 18 := by
    unfold Graph.nodeRadius
    by_cases ht : d0.type = Graph.NodeType.self
    · rw [if_pos ht]; left; rfl
    · rw [if_neg ht]; right; rfl
  have hxeq : (Graph.clampNode width height d0).x =
      max (Graph.nodeRadius d0 + 20) (min (width - Graph.nodeRadius d0 - 20) d0.x) := rfl
  have hyeq : (Graph.clampNode width height d0).y =
      max (Graph.nodeRadius d0 + 20) (min (height - Graph.nodeRadius d0 - 20) d0.y) := rfl
  have h1 : Graph.nodeRadius d0 + 20 ≤ width - Graph.nodeRadius d0 - 20 := by
    rcases hrb with h | h <;> rw [h] <;> linarith
  have h2 : Graph.nodeRadius d0 + 20 ≤ height - Graph.nodeRadius d0 - 20 := by
    rcases hrb with h | h <;> rw [h] <;> linarith
  rw [hr, hxeq, hyeq]
  exact ⟨le_max_left _ _,
    max_le h1 (min_le_left _ _),
    le_max_left _ _,
    max_le h2 (min_le_left _ _)⟩

/-- Witness for C9 on a concrete 800x600 viewport with one out-of-bounds
peer node. -/
theorem tick_boundary_clamp_witness :
    Graph.nodeRadius (Graph.clampNode 800 600 exNode) + 20 ≤
        (Graph.clampNode 800 600 exNode).x ∧
      (Graph.clampNode 800 600 exNode).x ≤
        800 - Graph.nodeRadius (Graph.clampNode 800 600 exNode) - 20 ∧
      Graph.nodeRadius (Graph.clampNode 800 600 exNode) + 20 ≤
        (Graph.clampNode 800 600 exNode).y ∧
      (Graph.clampNode 800 600 exNode).y ≤
        600 - Graph.nodeRadius (Graph.clampNode 800 600 exNode) - 20 :=
  tick_boundary_clamp 800 600 [exNode] (by norm_num) (by norm_num)
    (Graph.clampNode 800 600 exNode) (by simp [Graph.clampTick])

/-- Offset assignment as claim C6 describes it — group by the unordered
node-pair key, sort each group by edge id, assign the positional offsets —
written only to compare the claim's words against the implementation's
`Graph.assignOffsets`. -/
def claimSortedOffsets (links : List Graph.GraphLink) : List Graph.GraphLink :=
  ((Graph.buildPairGroups links).map (fun g =>
    let sorted := List.insertionSort (fun a b => Graph.jsStrLe a.id b.id = true) g.2
    sorted.enum.map (fun p =>
      { p.2 with curvatureOffset := Graph.curvOffset sorted.length p.1 }))).flatten

/-- C3 counterexample: for two opposite standalone reports between the same
pair the final multiset of curvature offsets is two copies of -25 — neither
pairwise-distinct nor symmetric about zero. -/
theorem offset_symmetry_counterexample :
    ((Graph.assignOffsets (Graph.buildLogicalLinks exC3)).map
        (fun e => e.curvatureOffset)) = [-25, -25] ∧
    ¬ ((Graph.assignOffsets (Graph.buildLogicalLinks exC3)).map
        (fun e => e.curvatureOffset)).Nodup ∧
    ¬ (∀ x : Rat,
      (((Graph.assignOffsets (Graph.buildLogicalLinks exC3)).map
          (fun e => e.curvatureOffset) : List Rat) : Multiset Rat).count x =
      (((Graph.assignOffsets (Graph.buildLogicalLinks exC3)).map
          (fun e => e.curvatureOffset) : List Rat) : Multiset Rat).count (-x)) := by
  have heq : ((Graph.assignOffsets (Graph.buildLogicalLinks exC3)).map
      (fun e => e.curvatureOffset)) = [-25, -25] := by
    have key : Graph.buildPairGroups (Graph.buildLogicalLinks exC3) =
        [("A|||B",
          [Graph.LinkData.toLink (Graph.mkLinkData "A" 0 (mkConn "B" none 1 1)) "A-B-0",
           Graph.LinkData.toLink (Graph.mkLinkData "B" 0 (mkConn "A" none 1 1)) "B-A-0"])] := by
      decide
    have j : Graph.jsSplit "|||" "A|||B" = ["A", "B"] := by decide
    simp [Graph.assignOffsets, key, j, Graph.assignGroup, Graph.curvOffset,
      Graph.mkLinkData, Graph.LinkData.toLink, mkConn, List.enum]
    norm_num
  refine ⟨heq, ?_, ?_⟩
  · rw [heq]
    simp
  · intro hall
    have h25 := hall 25
    rw [heq] at h25
    simp only [Multiset.coe_count, List.count_cons, List.count_nil, beq_iff_eq] at h25
    norm_num at h25

/-- C6 counterexample: the code assigns offsets in encounter order with a
direction-dependent sign, not in edge-id-sorted order; on `exC6` the edge
`conn-a` receives +25 while the claim's sorted assignment gives it -25. -/
theorem offset_sorting_counterexample :
    ((Graph.assignOffsets (Graph.buildLogicalLinks exC6)).map
        (fun e => (e.id, e.curvatureOffset))) = [("conn-z", -25), ("conn-a", 25)] ∧
    ((claimSortedOffsets (Graph.buildLogicalLinks exC6)).map
        (fun e => (e.id, e.curvatureOffset))) = [("conn-a", -25), ("conn-z", 25)] ∧
    (25 : Rat) ≠ -25 := by
  have key : Graph.buildPairGroups (Graph.buildLogicalLinks exC6) =
      [("A|||B",
        [Graph.LinkData.toLink (Graph.mkLinkData "A" 0 (mkConn "B" (some "z") 1 1)) "conn-z",
         Graph.LinkData.toLink (Graph.mkLinkData "A" 1 (mkConn "B" (some "a") 1 1)) "conn-a"])] := by
    decide
  have j : Graph.jsSplit "|||" "A|||B" = ["A", "B"] := by decide
  refine ⟨?_, ?_, by norm_num⟩
  · simp [Graph.assignOffsets, key, j, Graph.assignGroup, Graph.curvOffset,
      Graph.mkLinkData, Graph.LinkData.toLink, mkConn, List.enum]
    norm_num
  · have hz : Graph.jsStrLe "conn-z" "conn-a" = false := by decide
    simp [claimSortedOffsets, key, hz, Graph.curvOffset,
      Graph.mkLinkData, Graph.LinkData.toLink, mkConn, List.enum]
    norm_num

/-- C7 counterexample: although both members of the merged group carry
explicit `ports` entries (with distinct protocols), the merged edge keeps
only the first member's protocol/port descriptors — no union is formed. -/
theorem merged_ports_union_counterexample :
    (exC7.peers.map (fun p => p.connections.map (fun c => c.ports.length))) = [[1], [1]] ∧
    ((Graph.buildLogicalLinks exC7).map
        (fun e => (e.protocol, e.port, e.local_port, e.isBidirectional))) =
      [("TCP", "80", "", true)] ∧
    (Graph.parseAddress "udp://2.2.2.2:99").protocol = "UDP" ∧
    (Graph.parseAddress "udp://2.2.2.2:99").port = "99" ∧
    ("UDP" ≠ "TCP" ∧ "99" ≠ "80") := by
  refine ⟨by decide, by decide, by decide, by decide, by decide, by decide⟩

/-- C10 counterexample: pairwise-distinct peer ids containing `-` produce
two standalone edges with the identical synthesized id `a-b-c-0`. -/
theorem edge_id_collision_counterexample :
    (exC10.peers.map (fun p => p.id)).Nodup ∧
    ((Graph.buildLogicalLinks exC10).map (fun e => e.id)) = ["a-b-c-0", "a-b-c-0"] ∧
    ¬ ((Graph.buildLogicalLinks exC10).map (fun e => e.id)).Nodup := by
  refine ⟨by decide, by decide, by decide⟩

namespace Graph

theorem curvOffset_injective (n : Nat) : Function.Injective (curvOffset n) := by
  intro a b h
  unfold curvOffset at h
  have h50 : (50 : Rat) ≠ 0 := by norm_num
  have h2 := mul_right_cancel₀ h50 h
  have : (a : Rat) = b := by linarith
  exact_mod_cast this

theorem curvOffset_reflect {n i : Nat} (hi : i < n) :
    curvOffset n (n - 1 - i) = -(curvOffset n i) := by
  unfold curvOffset
  have h1 : 1 ≤ n := Nat.one_le_of_lt (Nat.lt_of_le_of_lt (Nat.zero_le i) hi)
  have hcast : ((n - 1 - i : Nat) : Rat) = (n : Rat) - 1 - i := by
    have hle : i ≤ n - 1 := Nat.le_sub_one_of_lt hi
    push_cast [Nat.cast_sub hle, Nat.cast_sub h1]
    ring
  rw [hcast]
  ring

theorem mem_baseOffsets_neg {n : Nat} {x : Rat}
    (h : x ∈ (List.range n).map (curvOffset n)) :
    -x ∈ (List.range n).map (curvOffset n) := by
  rcases List.mem_map.mp h with ⟨i, hi, rfl⟩
  rw [List.mem_range] at hi
  refine List.mem_map.mpr ⟨n - 1 - i, ?_, curvOffset_reflect hi⟩
  rw [List.mem_range]
  omega

end Graph

/-- C3 amended: before the direction-dependent sign flip, the multiset of
base curvature offsets handed to a group of `n` parallel edges is symmetric
about zero and consists of `n` pairwise-distinct values. -/
theorem base_offset_symmetry :
    ∀ n : Nat,
      ((List.range n).map (Graph.curvOffset n)).Nodup ∧
      ∀ x : Rat,
        (((List.range n).map (Graph.curvOffset n) : List Rat) : Multiset Rat).count x =
        (((List.range n).map (Graph.curvOffset n) : List Rat) : Multiset Rat).count (-x) := by
  intro n
  have hnd : ((List.range n).map (Graph.curvOffset n)).Nodup :=
    (List.nodup_range n).map (Graph.curvOffset_injective n)
  refine ⟨hnd, ?_⟩
  intro x
  rw [Multiset.coe_count, Multiset.coe_count]
  by_cases hx : x ∈ (List.range n).map (Graph.curvOffset n)
  · have hnx := Graph.mem_baseOffsets_neg hx
    rw [List.count_eq_one_of_mem hnd hx, List.count_eq_one_of_mem hnd hnx]
  · have hnx : -x ∉ (List.range n).map (Graph.curvOffset n) := by
      intro hmem
      exact hx (by simpa using Graph.mem_baseOffsets_neg hmem)
    rw [List.count_eq_zero_of_not_mem hx, List.count_eq_zero_of_not_mem hnx]

namespace Graph

/-- Members of a `mapPush` result come from the old map or are the pushed
value. -/
theorem mapPush_members {m : List (String × List LinkData)} {k : String}
    {v l : LinkData} {g : String × List LinkData}
    (hg : g ∈ mapPush m k v) (hl : l ∈ g.2) :
    (∃ g0 ∈ m, l ∈ g0.2) ∨ l = v := by
  unfold mapPush at hg
  by_cases hk : m.any (fun p => p.1 = k)
  · rw [if_pos hk] at hg
    rcases List.mem_map.mp hg with ⟨g0, hg0, rfl⟩
    by_cases hp : g0.1 = k
    · rw [if_pos hp] at hl
      rcases List.mem_append.mp hl with h | h
      · exact Or.inl ⟨g0, hg0, h⟩
      · exact Or.inr (List.mem_singleton.mp h)
    · rw [if_neg hp] at hl
      exact Or.inl ⟨g0, hg0, hl⟩
  · rw [if_neg hk] at hg
    rcases List.mem_append.mp hg with h | h
    · exact Or.inl ⟨g, h, hl⟩
    · rcases List.mem_singleton.mp h with rfl
      exact Or.inr (List.mem_singleton.mp hl)

/-- Invariant: every record in the connection map and in the standalone list
is a `mkLinkData` of a non-self-loop connection, hence has distinct
endpoints. -/
def AccSeparated (acc : List (String × List LinkData) × List LinkData) : Prop :=
  (∀ g ∈ acc.1, ∀ l ∈ g.2, l.source ≠ l.target) ∧
    (∀ l ∈ acc.2, l.source ≠ l.target)

theorem collectStep_separated {pid : String}
    {acc : List (String × List LinkData) × List LinkData} {ic : Nat × Connection}
    (h : AccSeparated acc) : AccSeparated (collectStep pid acc ic) := by
  unfold collectStep
  by_cases hself : pid = ic.2.peer_id
  · rw [if_pos hself]; exact h
  · rw [if_neg hself]
    have hgood : (mkLinkData pid ic.1 ic.2).source ≠ (mkLinkData pid ic.1 ic.2).target := by
      simpa [mkLinkData] using hself
    by_cases hid : hasConnId ic.2
    · rw [if_pos hid]
      refine ⟨?_, h.2⟩
      intro g hg l hl
      rcases mapPush_members hg hl with ⟨g0, hg0, hl0⟩ | rfl
      · exact h.1 g0 hg0 l hl0
      · exact hgood
    · rw [if_neg hid]
      refine ⟨h.1, ?_⟩
      intro l hl
      rcases List.mem_append.mp hl with hmem | hsing
      · exact h.2 l hmem
      · rcases List.mem_singleton.mp hsing with rfl
        exact hgood

theorem foldl_separated {pid : String} :
    ∀ (ics : List (Nat × Connection)) (acc : List (String × List LinkData) × List LinkData),
      AccSeparated acc → AccSeparated (ics.foldl (collectStep pid) acc) := by
  intro ics
  induction ics with
  | nil => intro acc h; exact h
  | cons ic ics ih => intro acc h; exact ih _ (collectStep_separated h)

theorem collectLinks_separated (data : ApiResponse) :
    AccSeparated (collectLinks data) := by
  unfold collectLinks
  have : ∀ (peers : List Peer) (acc : List (String × List LinkData) × List LinkData),
      AccSeparated acc →
      AccSeparated (peers.foldl
        (fun acc peer => peer.connections.enum.foldl (collectStep peer.id) acc) acc) := by
    intro peers
    induction peers with
    | nil => intro acc h; exact h
    | cons p peers ih => intro acc h; exact ih _ (foldl_separated _ _ h)
  exact this data.peers ([], []) ⟨by simp, by simp⟩

/-- Every edge produced from a group has the endpoints of one of the
group's members. -/
theorem processGroup_endpoints {connId : String} {links : List LinkData}
    {e : GraphLink} (he : e ∈ processGroup connId links) :
    ∃ l ∈ links, e.source = l.source ∧ e.target = l.target := by
  unfold processGroup at he
  by_cases hlen : links.length > 1
  · rw [if_pos hlen] at he
    match links, he with
    | baseLink :: rest, he =>
      rcases List.mem_singleton.mp he with rfl
      exact ⟨baseLink, List.mem_cons_self _ _, rfl, rfl⟩
  · rw [if_neg hlen] at he
    rcases List.mem_map.mp he with ⟨l, hl, rfl⟩
    exact ⟨l, hl, rfl, rfl⟩

end Graph

/-- C5: no self-loop edges — every logical edge produced from any snapshot
has distinct source and target (raw records with equal endpoints are
dropped before edge construction). -/
theorem no_self_loop_edges :
    ∀ data : ApiResponse,
      (Graph.buildLogicalLinks data).all (fun e => e.source ≠ e.target) = true := by
  intro data
  rw [List.all_eq_true]
  intro e he
  simp only [decide_eq_true_eq]
  have hsep := Graph.collectLinks_separated data
  unfold Graph.buildLogicalLinks at he
  rcases List.mem_append.mp he with h | h
  · rcases List.mem_flatten.mp h with ⟨out, hout, hein⟩
    rcases List.mem_map.mp hout with ⟨g, hg, rfl⟩
    rcases Graph.processGroup_endpoints hein with ⟨l, hl, hs, ht⟩
    rw [hs, ht]
    exact hsep.1 g hg l hl
  · rcases List.mem_map.mp h with ⟨l, hl, rfl⟩
    exact hsep.2 l hl

/-! ## Decimal representation facts (for the synthesized standalone edge ids) -/

namespace Graph

/-- Structural-recursion counterpart of the digit list produced by
`Nat.toDigits 10`. -/
def decimalChars (n : Nat) : List Char :=
  if n < 10 then [Nat.digitChar n]
  else decimalChars (n / 10) ++ [Nat.digitChar (n % 10)]
termination_by n
decreasing_by exact Nat.div_lt_self (by omega) (by omega)

theorem decimalChars_ne_nil (n : Nat) : decimalChars n ≠ [] := by
  unfold decimalChars
  by_cases h : n < 10
  · rw [if_pos h]; simp
  · rw [if_neg h]; simp

theorem toDigitsCore_eq_decimalChars :
    ∀ (fuel n : Nat) (ds : List Char), n < 10 ^ fuel →
      Nat.toDigitsCore 10 (fuel + 1) n ds = decimalChars n ++ ds := by
  intro fuel
  induction fuel with
  | zero =>
    intro n ds h
    interval_cases n
    simp [Nat.toDigitsCore, decimalChars]
  | succ fuel ih =>
    intro n ds h
    show Nat.toDigitsCore 10 (fuel + 1 + 1) n ds = decimalChars n ++ ds
    rw [Nat.toDigitsCore]
    by_cases hz : n / 10 = 0
    · have hn : n < 10 := by omega
      simp only [hz, if_true]
      unfold decimalChars
      rw [if_pos hn, Nat.mod_eq_of_lt hn]
      simp
    · simp only [hz, if_false]
      have hn : ¬ n < 10 := by omega
      have hlt : n / 10 < 10 ^ fuel := by
        apply Nat.div_lt_of_lt_mul
        rw [← pow_succ']
        exact h
      rw [ih (n / 10) (Nat.digitChar (n % 10) :: ds) hlt]
      conv_rhs => rw [decimalChars]
      rw [if_neg hn]
      simp

theorem repr_eq_decimalChars (n : Nat) :
    Nat.repr n = (decimalChars n).asString := by
  show (Nat.toDigits 10 n).asString = (decimalChars n).asString
  unfold Nat.toDigits
  have hbound : n < 10 ^ n := Nat.lt_pow_self (by omega) n
  rw [toDigitsCore_eq_decimalChars n n [] hbound]
  simp

theorem digitChar_isDigit : ∀ k : Nat, k < 10 → (Nat.digitChar k).isDigit = true := by
  decide

theorem decimalChars_all_digits (n : Nat) :
    ∀ c ∈ decimalChars n, c.isDigit = true := by
  induction n using Nat.strong_induction_on with
  | _ n ih =>
    intro c hc
    unfold decimalChars at hc
    by_cases h : n < 10
    · rw [if_pos h] at hc
      rcases List.mem_singleton.mp hc with rfl
      exact digitChar_isDigit n h
    · rw [if_neg h] at hc
      rcases List.mem_append.mp hc with hm | hm
      · exact ih (n / 10) (Nat.div_lt_self (by omega) (by omega)) c hm
      · rcases List.mem_singleton.mp hm with rfl
        exact digitChar_isDigit (n % 10) (Nat.mod_lt n (by omega))

theorem hyphen_not_mem_decimalChars (n : Nat) : '-' ∉ decimalChars n := by
  intro h
  have := decimalChars_all_digits n '-' h
  simp [Char.isDigit] at this

theorem digitChar_inj_lt :
    ∀ m : Nat, m < 10 → ∀ n : Nat, n < 10 →
      Nat.digitChar m = Nat.digitChar n → m = n := by
  decide

theorem concat_inj {α : Type} {l1 l2 : List α} {a b : α}
    (h : l1 ++ [a] = l2 ++ [b]) : l1 = l2 ∧ a = b := by
  have hr := congrArg List.reverse h
  simp only [List.reverse_append, List.reverse_singleton, List.singleton_append,
    List.cons.injEq] at hr
  rcases hr with ⟨rfl, htail⟩
  exact ⟨List.reverse_injective htail, rfl⟩

theorem decimalChars_eq (n : Nat) :
    decimalChars n =
      if n < 10 then [Nat.digitChar n]
      else decimalChars (n / 10) ++ [Nat.digitChar (n % 10)] := by
  conv_lhs => rw [decimalChars]

theorem decimalChars_length_pos (n : Nat) : 0 < (decimalChars n).length := by
  cases hd : decimalChars n with
  | nil => exact absurd hd (decimalChars_ne_nil n)
  | cons x xs => simp

theorem decimalChars_injective : ∀ m n : Nat, decimalChars m = decimalChars n → m = n := by
  intro m
  induction m using Nat.strong_induction_on with
  | _ m ih =>
    intro n h
    rw [decimalChars_eq m, decimalChars_eq n] at h
    by_cases hm : m < 10 <;> by_cases hn : n < 10
    · rw [if_pos hm, if_pos hn] at h
      exact digitChar_inj_lt m hm n hn (List.singleton_injective h)
    · rw [if_pos hm, if_neg hn] at h
      have hlen := congrArg List.length h
      have hpos := decimalChars_length_pos (n / 10)
      simp only [List.length_singleton, List.length_append] at hlen
      omega
    · rw [if_neg hm, if_pos hn] at h
      have hlen := congrArg List.length h
      have hpos := decimalChars_length_pos (m / 10)
      simp only [List.length_singleton, List.length_append] at hlen
      omega
    · rw [if_neg hm, if_neg hn] at h
      rcases concat_inj h with ⟨h1, h2⟩
      have hdiv : m / 10 = n / 10 :=
        ih (m / 10) (Nat.div_lt_self (by omega) (by omega)) (n / 10) h1
      have hmod : m % 10 = n % 10 :=
        digitChar_inj_lt _ (Nat.mod_lt m (by omega)) _ (Nat.mod_lt n (by omega)) h2
      omega

theorem repr_injective : ∀ m n : Nat, Nat.repr m = Nat.repr n → m = n := by
  intro m n h
  rw [repr_eq_decimalChars, repr_eq_decimalChars, List.asString_inj] at h
  exact decimalChars_injective m n h

theorem hyphen_not_mem_repr (n : Nat) : '-' ∉ (Nat.repr n).data := by
  rw [repr_eq_decimalChars]
  intro h
  exact hyphen_not_mem_decimalChars n (by simpa [List.asString] using h)

end Graph

namespace Graph

/-- Splitting at a separator character is unambiguous when both prefixes are
free of that character. -/
theorem hyphen_split_inj :
    ∀ (a b u v : List Char), '-' ∉ a → '-' ∉ b →
      a ++ '-' :: u = b ++ '-' :: v → a = b ∧ u = v := by
  intro a
  induction a with
  | nil =>
    intro b u v _ hb h
    cases b with
    | nil => simpa using h
    | cons c bs =>
      simp only [List.nil_append, List.cons_append, List.cons.injEq] at h
      rcases h with ⟨rfl, _⟩
      exact absurd (List.mem_cons_self _ _) hb
  | cons c as ih =>
    intro b u v ha hb h
    cases b with
    | nil =>
      simp only [List.nil_append, List.cons_append, List.cons.injEq] at h
      rcases h with ⟨rfl, _⟩
      exact absurd (List.mem_cons_self _ _) ha
    | cons d bs =>
      simp only [List.cons_append, List.cons.injEq] at h
      rcases h with ⟨rfl, h⟩
      have has : '-' ∉ as := fun hm => ha (List.mem_cons_of_mem _ hm)
      have hbs : '-' ∉ bs := fun hm => hb (List.mem_cons_of_mem _ hm)
      rcases ih bs u v has hbs h with ⟨rfl, rfl⟩
      exact ⟨rfl, rfl⟩

/-- The standalone records contributed by one peer, in order: its
non-self-loop connections without a (nonempty) connection id. -/
def standaloneOf (pid : String) (ics : List (Nat × Connection)) : List LinkData :=
  ics.filterMap (fun ic =>
    if pid = ic.2.peer_id then none
    else if hasConnId ic.2 then none
    else some (mkLinkData pid ic.1 ic.2))

theorem foldl_collectStep_snd (pid : String) :
    ∀ (ics : List (Nat × Connection)) (acc : List (String × List LinkData) × List LinkData),
      (ics.foldl (collectStep pid) acc).2 = acc.2 ++ standaloneOf pid ics := by
  intro ics
  induction ics with
  | nil => intro acc; simp [standaloneOf]
  | cons ic ics ih =>
    intro acc
    rw [List.foldl_cons, ih]
    by_cases hself : pid = ic.2.peer_id
    · simp [collectStep, standaloneOf, hself, List.filterMap_cons]
    · by_cases hid : hasConnId ic.2
      · simp [collectStep, standaloneOf, hself, hid, List.filterMap_cons]
      · simp [collectStep, standaloneOf, hself, hid, List.filterMap_cons]


theorem collectLinks_snd_eq (data : ApiResponse) :
    (collectLinks data).2 =
      data.peers.flatMap (fun p => standaloneOf p.id p.connections.enum) := by
  unfold collectLinks
  have hgen : ∀ (peers : List Peer) (acc : List (String × List LinkData) × List LinkData),
      (peers.foldl (fun a peer => peer.connections.enum.foldl (collectStep peer.id) a) acc).2 =
        acc.2 ++ peers.flatMap (fun p => standaloneOf p.id p.connections.enum) := by
    intro peers
    induction peers with
    | nil => intro acc; simp
    | cons p peers ih =>
      intro acc
      rw [List.foldl_cons, ih, foldl_collectStep_snd]
      simp
  rw [hgen]
  simp

end Graph

namespace Graph

theorem mapPush_keys (m : List (String × List LinkData)) (k : String) (v : LinkData) :
    (mapPush m k v).map Prod.fst =
      if m.any (fun p => p.1 = k) then m.map Prod.fst else m.map Prod.fst ++ [k] := by
  unfold mapPush
  by_cases h : m.any (fun p => p.1 = k)
  · rw [if_pos h, if_pos h, List.map_map]
    apply List.map_congr_left
    intro p _
    by_cases hp : p.1 = k
    · simp [hp]
    · simp [hp]
  · rw [if_neg h, if_neg h]
    simp

theorem mapPush_keys_nodup {m : List (String × List LinkData)} {k : String} {v : LinkData}
    (h : (m.map Prod.fst).Nodup) : ((mapPush m k v).map Prod.fst).Nodup := by
  rw [mapPush_keys]
  by_cases hk : m.any (fun p => p.1 = k)
  · rw [if_pos hk]; exact h
  · rw [if_neg hk]
    have hnot : k ∉ m.map Prod.fst := by
      intro hmem
      rcases List.mem_map.mp hmem with ⟨p, hp, rfl⟩
      rw [List.any_eq_true] at hk
      exact hk ⟨p, hp, by simp⟩
    simp [List.nodup_append, h, hnot]

theorem collectStep_keys_nodup {pid : String}
    {acc : List (String × List LinkData) × List LinkData} {ic : Nat × Connection}
    (h : (acc.1.map Prod.fst).Nodup) : ((collectStep pid acc ic).1.map Prod.fst).Nodup := by
  unfold collectStep
  by_cases hself : pid = ic.2.peer_id
  · rw [if_pos hself]; exact h
  · rw [if_neg hself]
    by_cases hid : hasConnId ic.2
    · rw [if_pos hid]; exact mapPush_keys_nodup h
    · rw [if_neg hid]; exact h

theorem collectLinks_keys_nodup (data : ApiResponse) :
    (((collectLinks data).1).map Prod.fst).Nodup := by
  unfold collectLinks
  have hinner : ∀ (ics : List (Nat × Connection)) (pid : String)
      (acc : List (String × List LinkData) × List LinkData),
      (acc.1.map Prod.fst).Nodup →
      (((ics.foldl (collectStep pid) acc).1).map Prod.fst).Nodup := by
    intro ics
    induction ics with
    | nil => intro pid acc h; exact h
    | cons ic ics ih => intro pid acc h; exact ih pid _ (collectStep_keys_nodup h)
  have houter : ∀ (peers : List Peer) (acc : List (String × List LinkData) × List LinkData),
      (acc.1.map Prod.fst).Nodup →
      (((peers.foldl
          (fun a peer => peer.connections.enum.foldl (collectStep peer.id) a) acc).1).map
        Prod.fst).Nodup := by
    intro peers
    induction peers with
    | nil => intro acc h; exact h
    | cons p peers ih => intro acc h; exact ih _ (hinner _ _ _ h)
  exact houter data.peers ([], []) (by simp)

/-- Each edge of a processed group carries one of the two ids synthesized
from the group's connection id. -/
theorem processGroup_id_forms {connId : String} {links : List LinkData}
    {e : GraphLink} (he : e ∈ processGroup connId links) :
    e.id = "merged-" ++ connId ∨ e.id = "conn-" ++ connId := by
  unfold processGroup at he
  by_cases hlen : links.length > 1
  · rw [if_pos hlen] at he
    match links, he with
    | baseLink :: rest, he =>
      rcases List.mem_singleton.mp he with rfl
      exact Or.inl rfl
  · rw [if_neg hlen] at he
    rcases List.mem_map.mp he with ⟨l, _, rfl⟩
    exact Or.inr rfl

/-- A processed group emits at most one edge, so its id list is nodup. -/
theorem processGroup_ids_nodup (connId : String) (links : List LinkData) :
    ((processGroup connId links).map (fun e => e.id)).Nodup := by
  unfold processGroup
  by_cases hlen : links.length > 1
  · rw [if_pos hlen]
    match links with
    | baseLink :: rest => simp
  · rw [if_neg hlen]
    match links, hlen with
    | [], _ => simp
    | [l], _ => simp
    | l1 :: l2 :: rest, hlen => simp at hlen

end Graph

namespace Graph

theorem data_dash : ("-" : String).data = ['-'] := rfl

theorem prefixed_split {p1 p2 k1 k2 : String}
    (hp1 : '-' ∉ p1.data) (hp2 : '-' ∉ p2.data)
    (h : p1.data ++ '-' :: k1.data = p2.data ++ '-' :: k2.data) :
    p1 = p2 ∧ k1 = k2 := by
  rcases hyphen_split_inj _ _ _ _ hp1 hp2 h with ⟨h1, h2⟩
  exact ⟨String.ext h1, String.ext h2⟩

theorem data_merged_dash (k : String) :
    ("merged-" ++ k).data = "merged".data ++ '-' :: k.data := by
  rw [String.data_append]
  rfl

theorem data_conn_dash (k : String) :
    ("conn-" ++ k).data = "conn".data ++ '-' :: k.data := by
  rw [String.data_append]
  rfl

theorem data_standaloneId (l : LinkData) :
    (standaloneId l).data =
      l.source.data ++ '-' :: (l.target.data ++ '-' :: (Nat.repr l.originalIndex).data) := by
  unfold standaloneId
  simp [String.data_append, data_dash]

/-- Two distinct group keys never synthesize the same edge id, whatever mix
of `merged-`/`conn-` forms is involved. -/
theorem group_id_forms_injective {k1 k2 : String} (hne : k1 ≠ k2) {x : String}
    (h1 : x = "merged-" ++ k1 ∨ x = "conn-" ++ k1)
    (h2 : x = "merged-" ++ k2 ∨ x = "conn-" ++ k2) : False := by
  have hm : '-' ∉ ("merged" : String).data := by decide
  have hc : '-' ∉ ("conn" : String).data := by decide
  rcases h1 with rfl | rfl <;> rcases h2 with h2 | h2
  · have hd := congrArg String.data h2
    rw [data_merged_dash, data_merged_dash] at hd
    exact hne (prefixed_split hm hm hd).2
  · have hd := congrArg String.data h2
    rw [data_merged_dash, data_conn_dash] at hd
    have := (prefixed_split hm hc hd).1
    simp at this
  · have hd := congrArg String.data h2
    rw [data_conn_dash, data_merged_dash] at hd
    have := (prefixed_split hc hm hd).1
    simp at this
  · have hd := congrArg String.data h2
    rw [data_conn_dash, data_conn_dash] at hd
    exact hne (prefixed_split hc hc hd).2

theorem standaloneOf_mem {pid : String} {ics : List (Nat × Connection)} {l : LinkData}
    (h : l ∈ standaloneOf pid ics) :
    ∃ ic ∈ ics, l = mkLinkData pid ic.1 ic.2 := by
  unfold standaloneOf at h
  rcases List.mem_filterMap.mp h with ⟨ic, hic, hl⟩
  by_cases c1 : pid = ic.2.peer_id
  · simp [c1] at hl
  · by_cases c2 : hasConnId ic.2
    · simp [c1, c2] at hl
    · simp only [if_neg c1, if_neg c2, Option.some.injEq] at hl
      exact ⟨ic, hic, hl.symm⟩

theorem standaloneOf_source {pid : String} {ics : List (Nat × Connection)} {l : LinkData}
    (h : l ∈ standaloneOf pid ics) : l.source = pid := by
  rcases standaloneOf_mem h with ⟨ic, _, rfl⟩
  rfl

/-- Two standalone records with the same hyphen-free source and different
original indexes get different synthesized ids. -/
theorem standaloneId_ne_same_source {l1 l2 : LinkData}
    (hs : l1.source = l2.source)
    (hidx : l1.originalIndex ≠ l2.originalIndex) :
    standaloneId l1 ≠ standaloneId l2 := by
  intro h
  have hd := congrArg String.data h
  rw [data_standaloneId, data_standaloneId, hs] at hd
  have htail := List.append_cancel_left hd
  rcases List.cons.inj htail with ⟨-, hrest⟩
  have hrev := congrArg List.reverse hrest
  simp only [List.reverse_append, List.reverse_cons, List.append_assoc,
    List.singleton_append] at hrev
  have hr1 : '-' ∉ (Nat.repr l1.originalIndex).data.reverse := by
    rw [List.mem_reverse]; exact hyphen_not_mem_repr _
  have hr2 : '-' ∉ (Nat.repr l2.originalIndex).data.reverse := by
    rw [List.mem_reverse]; exact hyphen_not_mem_repr _
  rcases hyphen_split_inj _ _ _ _ hr1 hr2 hrev with ⟨hrepr, -⟩
  have : Nat.repr l1.originalIndex = Nat.repr l2.originalIndex :=
    String.ext (List.reverse_injective hrepr)
  exact hidx (repr_injective _ _ this)

/-- Two standalone records with different hyphen-free sources get different
synthesized ids. -/
theorem standaloneId_ne_diff_source {l1 l2 : LinkData}
    (hf1 : '-' ∉ l1.source.data) (hf2 : '-' ∉ l2.source.data)
    (hs : l1.source ≠ l2.source) :
    standaloneId l1 ≠ standaloneId l2 := by
  intro h
  have hd := congrArg String.data h
  rw [data_standaloneId, data_standaloneId] at hd
  exact hs (prefixed_split hf1 hf2 hd).1

/-- A standalone id never collides with a group-synthesized id when its
source is hyphen-free and is neither `conn` nor `merged`. -/
theorem standaloneId_ne_group_forms {l : LinkData} {connId : String}
    (hf : '-' ∉ l.source.data) (hc : l.source ≠ "conn") (hm : l.source ≠ "merged")
    {x : String} (hx : x = "merged-" ++ connId ∨ x = "conn-" ++ connId) :
    standaloneId l ≠ x := by
  have hmd : '-' ∉ ("merged" : String).data := by decide
  have hcd : '-' ∉ ("conn" : String).data := by decide
  intro h
  rcases hx with rfl | rfl
  · have hd := congrArg String.data h
    rw [data_standaloneId, data_merged_dash] at hd
    exact hm (prefixed_split hf hmd hd).1
  · have hd := congrArg String.data h
    rw [data_standaloneId, data_conn_dash] at hd
    exact hc (prefixed_split hf hcd hd).1

theorem enumFrom_fst_le {α : Type} :
    ∀ (l : List α) (m : Nat) (p : Nat × α), p ∈ List.enumFrom m l → m ≤ p.1 := by
  intro l
  induction l with
  | nil => intro m p h; cases h
  | cons x l ih =>
    intro m p h
    rcases List.mem_cons.mp h with rfl | h
    · exact Nat.le_refl _
    · exact Nat.le_of_succ_le (ih (m + 1) p h)

theorem enumFrom_fst_pairwise {α : Type} :
    ∀ (l : List α) (m : Nat), (List.enumFrom m l).Pairwise (fun a b => a.1 < b.1) := by
  intro l
  induction l with
  | nil => intro m; exact List.Pairwise.nil
  | cons x l ih =>
    intro m
    refine List.Pairwise.cons ?_ (ih (m + 1))
    intro p hp
    exact Nat.lt_of_lt_of_le (Nat.lt_succ_self m) (enumFrom_fst_le l (m + 1) p hp)

theorem standaloneOf_pairwise_idx (pid : String) (ics : List (Nat × Connection))
    (h : ics.Pairwise (fun a b => a.1 < b.1)) :
    (standaloneOf pid ics).Pairwise
      (fun l1 l2 => l1.originalIndex ≠ l2.originalIndex) := by
  unfold standaloneOf
  refine List.Pairwise.filterMap _ ?_ h
  intro a a' hlt b hb b' hb'
  by_cases c1 : pid = a.2.peer_id
  · simp [c1] at hb
  · by_cases c2 : hasConnId a.2
    · simp [c1, c2] at hb
    · simp only [if_neg c1, if_neg c2, Option.mem_def, Option.some.injEq] at hb
      by_cases d1 : pid = a'.2.peer_id
      · simp [d1] at hb'
      · by_cases d2 : hasConnId a'.2
        · simp [d1, d2] at hb'
        · simp only [if_neg d1, if_neg d2, Option.mem_def, Option.some.injEq] at hb'
          subst hb
          subst hb'
          exact Nat.ne_of_lt hlt

end Graph

/-- C10 amended: the edge ids of one update are pairwise distinct provided
the (pairwise-distinct) peer ids contain no `-` and none of them is the
literal string `conn` or `merged`; without the extra proviso the synthesized
`source-target-index` ids can collide. -/
theorem edge_ids_nodup :
    ∀ data : ApiResponse,
      (data.peers.map (fun p => p.id)).Nodup →
      (∀ p ∈ data.peers, '-' ∉ p.id.data ∧ p.id ≠ "conn" ∧ p.id ≠ "merged") →
      ((Graph.buildLogicalLinks data).map (fun e => e.id)).Nodup := by
  intro data hnd hfree
  have hmap : (Graph.buildLogicalLinks data).map (fun e => e.id) =
      ((Graph.collectLinks data).1.map
          (fun g => (Graph.processGroup g.1 g.2).map (fun e => e.id))).flatten
        ++ ((Graph.collectLinks data).2.map Graph.standaloneId) := by
    unfold Graph.buildLogicalLinks
    rw [List.map_append, List.map_flatten, List.map_map, List.map_map]
    rfl
  rw [hmap, List.nodup_append]
  refine ⟨?_, ?_, ?_⟩
  · rw [List.nodup_flatten]
    constructor
    · intro l hl
      rcases List.mem_map.mp hl with ⟨g, _, rfl⟩
      exact Graph.processGroup_ids_nodup g.1 g.2
    · rw [List.pairwise_map]
      have hkeys : ((Graph.collectLinks data).1).Pairwise (fun g1 g2 => g1.1 ≠ g2.1) :=
        (List.pairwise_map).mp (Graph.collectLinks_keys_nodup data)
      refine hkeys.imp ?_
      intro g1 g2 hne x hx1 hx2
      rcases List.mem_map.mp hx1 with ⟨e1, he1, rfl⟩
      rcases List.mem_map.mp hx2 with ⟨e2, he2, heq⟩
      exact Graph.group_id_forms_injective hne
        (Graph.processGroup_id_forms he1) (heq ▸ Graph.processGroup_id_forms he2)
  · rw [Graph.collectLinks_snd_eq, List.map_flatMap, List.nodup_flatMap]
    constructor
    · intro p _
      have hpair := Graph.standaloneOf_pairwise_idx p.id p.connections.enum
        (Graph.enumFrom_fst_pairwise p.connections 0)
      refine (List.pairwise_map).mpr ?_
      refine hpair.imp_of_mem ?_
      intro l1 l2 h1 h2 hidx
      exact Graph.standaloneId_ne_same_source
        (by rw [Graph.standaloneOf_source h1, Graph.standaloneOf_source h2]) hidx
    · have hnd2 : data.peers.Pairwise (fun p1 p2 => p1.id ≠ p2.id) :=
        (List.pairwise_map).mp hnd
      refine hnd2.imp_of_mem ?_
      intro p1 p2 hp1 hp2 hne x hx1 hx2
      rcases List.mem_map.mp hx1 with ⟨l1, hl1, rfl⟩
      rcases List.mem_map.mp hx2 with ⟨l2, hl2, heq⟩
      refine Graph.standaloneId_ne_diff_source ?_ ?_ ?_ heq.symm
      · rw [Graph.standaloneOf_source hl1]; exact (hfree p1 hp1).1
      · rw [Graph.standaloneOf_source hl2]; exact (hfree p2 hp2).1
      · rw [Graph.standaloneOf_source hl1, Graph.standaloneOf_source hl2]; exact hne
  · intro x hx1 hx2
    rcases List.mem_flatten.mp hx1 with ⟨ids, hids, hxin⟩
    rcases List.mem_map.mp hids with ⟨g, _, rfl⟩
    rcases List.mem_map.mp hxin with ⟨e, he, rfl⟩
    have hforms := Graph.processGroup_id_forms he
    rw [Graph.collectLinks_snd_eq, List.map_flatMap] at hx2
    rcases List.mem_flatMap.mp hx2 with ⟨p, hp, hx3⟩
    rcases List.mem_map.mp hx3 with ⟨l, hl, heq⟩
    have hsrc := Graph.standaloneOf_source hl
    exact Graph.standaloneId_ne_group_forms
      (by rw [hsrc]; exact (hfree p hp).1)
      (by rw [hsrc]; exact (hfree p hp).2.1)
      (by rw [hsrc]; exact (hfree p hp).2.2)
      hforms heq

/-- Witness for the amended C10 on the two-peer example: hypotheses hold and
the produced id list is duplicate-free. -/
theorem edge_ids_nodup_witness :
    ((Graph.buildLogicalLinks exC1).map (fun e => e.id)).Nodup :=
  edge_ids_nodup exC1 (by decide) (by decide)

namespace Graph

theorem mem_enumFrom_get {α : Type} :
    ∀ (l : List α) (n i : Nat) (hi : i < l.length),
      (n + i, l.get ⟨i, hi⟩) ∈ List.enumFrom n l := by
  intro l
  induction l with
  | nil => intro n i hi; cases hi
  | cons x l ih =>
    intro n i hi
    cases i with
    | zero => simp
    | succ i =>
      have := ih (n + 1) i (Nat.lt_of_succ_lt_succ hi)
      have harith : n + (i + 1) = (n + 1) + i := by omega
      rw [harith]
      exact List.mem_cons_of_mem _ this

theorem mem_enum_get {α : Type} (l : List α) (i : Nat) (hi : i < l.length) :
    (i, l.get ⟨i, hi⟩) ∈ l.enum := by
  have := mem_enumFrom_get l 0 i hi
  simpa using this

end Graph

/-- C6 amended: the offset assigner groups logical edges by the unordered
node-pair key; within a group of size `n` the edge at position `i` in
encounter order receives the base offset `(i - (n-1)/2) * 50`, kept as-is
when its stored source equals the first id of the canonical key and negated
otherwise (no sorting by edge id takes place). -/
theorem offset_encounter_order :
    ∀ (links : List Graph.GraphLink) (g : String × List Graph.GraphLink),
      g ∈ Graph.buildPairGroups links →
      ∀ (i : Nat) (hi : i < g.2.length),
        ∃ e ∈ Graph.assignOffsets links,
          e.id = (g.2.get ⟨i, hi⟩).id ∧
          e.curvatureOffset =
            (if (g.2.get ⟨i, hi⟩).source = (Graph.jsSplit "|||" g.1).headD ""
             then Graph.curvOffset g.2.length i
             else -(Graph.curvOffset g.2.length i)) := by
  intro links g hg i hi
  have henum := Graph.mem_enum_get g.2 i hi
  exact ⟨_,
    List.mem_flatten.mpr
      ⟨Graph.assignGroup g.1 g.2, List.mem_map_of_mem _ hg, List.mem_map_of_mem _ henum⟩,
    rfl, rfl⟩

/-- Witness for the amended C6: in the `exC6` group the second-encountered
edge `conn-a` receives offset +25. -/
theorem offset_encounter_order_witness :
    ∃ e ∈ Graph.assignOffsets (Graph.buildLogicalLinks exC6),
      e.id = "conn-a" ∧ e.curvatureOffset = 25 := by
  have h := offset_encounter_order (Graph.buildLogicalLinks exC6)
    ("A|||B",
      [Graph.LinkData.toLink (Graph.mkLinkData "A" 0 (mkConn "B" (some "z") 1 1)) "conn-z",
       Graph.LinkData.toLink (Graph.mkLinkData "A" 1 (mkConn "B" (some "a") 1 1)) "conn-a"])
    (by decide) 1 (by decide)
  rcases h with ⟨e, he, hid, hoff⟩
  refine ⟨e, he, ?_, ?_⟩
  · rw [hid]; rfl
  · rw [hoff, if_pos (by decide)]
    norm_num [Graph.curvOffset]

/-- C7 amended: for a merged group the protocol/port descriptors on the
resulting edge are always those of the group's first member; per-port
entries on the members are never consulted and no union is formed. -/
theorem merged_descriptors_from_first :
    ∀ (connId : String) (l1 : Graph.LinkData) (rest : List Graph.LinkData),
      rest ≠ [] →
      ∃ e, Graph.processGroup connId (l1 :: rest) = [e] ∧
        e.protocol = l1.protocol ∧ e.port = l1.port ∧ e.local_port = l1.local_port := by
  intro connId l1 rest hne
  match rest, hne with
  | l2 :: rest2, _ =>
    rw [Graph.processGroup_cons_cons]
    exact ⟨_, rfl, rfl, rfl, rfl⟩

/-- Witness for the amended C7 at the two-member group of `exC7`. -/
theorem merged_descriptors_from_first_witness :
    ∃ e, Graph.processGroup "K"
        [Graph.mkLinkData "A" 0 (mkConn "B" (some "K") 1 1 "tcp://1.1.1.1:80"
            [{ src := 1, protocol := "tcp", dst := 2 }]),
         Graph.mkLinkData "B" 0 (mkConn "A" (some "K") 1 1 "udp://2.2.2.2:99"
            [{ src := 3, protocol := "udp", dst := 4 }])] = [e] ∧
      e.protocol = (Graph.mkLinkData "A" 0 (mkConn "B" (some "K") 1 1 "tcp://1.1.1.1:80"
          [{ src := 1, protocol := "tcp", dst := 2 }])).protocol ∧
      e.port = (Graph.mkLinkData "A" 0 (mkConn "B" (some "K") 1 1 "tcp://1.1.1.1:80"
          [{ src := 1, protocol := "tcp", dst := 2 }])).port ∧
      e.local_port = (Graph.mkLinkData "A" 0 (mkConn "B" (some "K") 1 1 "tcp://1.1.1.1:80"
          [{ src := 1, protocol := "tcp", dst := 2 }])).local_port :=
  merged_descriptors_from_first "K" _ _ (by decide)
